import Mathlib

/-!
Verification development for the rustitude disk-usage analyzer.

The development shallowly embeds the program's core algorithms:

* the cancelable recursive directory-size scanner
  (`src/dir.rs`, `get_directory_size_recursive` / `get_directory_size_recursive_impl`);
* the worker's scan callback that folds scan events into the size cache
  (`src/main.rs`, the closure passed to `get_directory_size_recursive`);
* the tree materializer (`src/main.rs`, `collect`);
* the sunburst layout (`src/main.rs`, `Chart::create_segments_recursive`);
* the polar hit test (`src/main.rs`, `Chart::paint`).

Filesystems are modelled as finite trees with exact file sizes; machine
integer arithmetic on `u64` sizes is modelled by `Nat` (the scanner only adds
sizes, and overflow of a 64-bit byte counter is unreachable for real
filesystems); `f64` geometry is modelled by exact rationals `ℚ`, which is
faithful for the control-flow properties stated here.
-/

namespace Rustitude

/-- A filesystem entry: either a file with a size in bytes, or a directory
with a named list of child entries (list order = directory iteration order). -/
inductive FSTree where
  | file (size : Nat)
  | dir (entries : List (String × FSTree))
deriving Repr

mutual

/-- Sum of the sizes of all files anywhere beneath a tree
(a file counts itself). -/
def fileSum : FSTree → Nat
  | .file sz => sz
  | .dir es => fileSumList es

/-- Sum of the sizes of all files anywhere beneath a list of named entries. -/
def fileSumList : List (String × FSTree) → Nat
  | [] => 0
  | (_, t) :: rest => fileSum t + fileSumList rest

end

/-- Number of filesystem entries (files and directories) in a list of named
entries, counting recursively. -/
def numEntries : List (String × FSTree) → Nat
  | [] => 0
  | (_, .file _) :: rest => 1 + numEntries rest
  | (_, .dir es) :: rest => (numEntries es + 1) + numEntries rest

/-- Paths are modelled as lists of name components from the scan root. -/
abbrev FSPath := List String

/-- The scan callback type: given the consumer's state, the parent path, the
entry path, the directory flag and the size, it may fail (`Except.error`) or
answer `continue?` together with its next state.  This models the Rust
`FnMut(&str, &str, bool, u64) -> Result<bool, Error>` closure, whose captured
mutable environment is the state `σ`. -/
def Cb (σ ε : Type) := σ → FSPath → FSPath → Bool → Nat → Except ε (Bool × σ)

/-- Embedding of `get_directory_size_recursive_impl` (src/dir.rs:7-45) run on
the listing `l` of the directory at `path`, with accumulator `total` (the
local `total` variable at the point the loop reaches `l`) and callback state
`s`.  Returns `(total, completed_fully, final state)`.  The Rust `canceled`
flag is threaded through the `completed_fully` component: the flag is set
exactly when a recursive result or a callback answer is `false`, upon which
the function returns `(total, false)` immediately. -/
def scanList {σ ε : Type} (cb : Cb σ ε) :
    FSPath → List (String × FSTree) → Nat → σ → Except ε (Nat × Bool × σ)
  | _, [], total, s => .ok (total, true, s)
  | path, (name, .file sz) :: rest, total, s =>
      -- files: `size = metadata.len()`, then `total += size`, then the callback
      match cb s path (path ++ [name]) false sz with
      | .error e => .error e
      | .ok (cont, s') =>
          if cont then scanList cb path rest (total + sz) s'
          else .ok (total + sz, false, s')
  | path, (name, .dir es) :: rest, total, s =>
      -- directories: recurse first; on cancellation return the partial total
      -- without the subtree's partial sum; otherwise `total += size` and call
      -- the callback with the subtree total
      match scanList cb (path ++ [name]) es 0 s with
      | .error e => .error e
      | .ok (sub, completed, s') =>
          if completed then
            match cb s' path (path ++ [name]) true sub with
            | .error e => .error e
            | .ok (cont, s2) =>
                if cont then scanList cb path rest (total + sub) s2
                else .ok (total + sub, false, s2)
          else .ok (total, false, s')

/-- Embedding of the public `get_directory_size_recursive` (src/dir.rs:3-49):
scan the directory at `path` whose listing is `entries`, starting from
callback state `s`. -/
def getDirectorySizeRecursive {σ ε : Type} (cb : Cb σ ε) (path : FSPath)
    (entries : List (String × FSTree)) (s : σ) : Except ε (Nat × Bool × σ) :=
  scanList cb path entries 0 s

/-- One scan event as delivered to the callback: parent path, entry path,
directory flag, size. -/
structure ScanEvent where
  parent : FSPath
  epath : FSPath
  isDir : Bool
  size : Nat
deriving Repr, DecidableEq

/-- A callback that records every event in order and always continues. -/
def recordCb : Cb (List ScanEvent) Unit :=
  fun s p q b n => .ok (true, s ++ [⟨p, q, b, n⟩])

/-- The post-order event trace of a directory listing: for each entry, the
events of its descendants (for directories) followed by the entry's own event;
a directory's own event carries the exact sum of its descendant file sizes. -/
def postEvents (path : FSPath) : List (String × FSTree) → List ScanEvent
  | [] => []
  | (name, .file sz) :: rest =>
      ⟨path, path ++ [name], false, sz⟩ :: postEvents path rest
  | (name, .dir es) :: rest =>
      postEvents (path ++ [name]) es ++
        ⟨path, path ++ [name], true, fileSumList es⟩ :: postEvents path rest

/-! ### Worker scan callback (src/main.rs:252-287)

The closure handed to `get_directory_size_recursive` by `start_worker`.  Its
captured mutable environment (`total`, `count`, the scan cache, and the
cancellation receiver `rx`) is the state below.  The channel is modelled by a
ghost pair: `inv` counts the callback invocations performed so far, and
`cancelAt` is the invocation index from which the cancel message is available
in the channel (`rx.try_recv()` returns `Ok(true)`).  The `HashMap` push
`cache.entry(parent).or_insert_with(Vec::new).push((path, size))` is modelled
by appending the `(parent, path, size)` record to an insertion-ordered list,
which determines the map's content.  The throttled progress notification
(`count % NOTIFY_INTERVAL`) only publishes snapshots to the UI and changes no
worker state besides `count`, so it needs no further modelling. -/

/-- The worker's mutable scan state: cancellation ghost clock, running total
of raw file sizes, directory-event counter, and the insertion-ordered scan
cache records. -/
structure WorkerState where
  cancelAt : Nat
  inv : Nat
  total : Nat
  count : Nat
  cache : List (FSPath × FSPath × Nat)
deriving Repr, DecidableEq

/-- Embedding of the worker's scan callback (src/main.rs:252-287). -/
def workerCb : Cb WorkerState Unit := fun s parent epath isDir size =>
  if s.cancelAt ≤ s.inv then
    -- `rx.try_recv()` yields the cancel message: return Ok(false), record nothing
    .ok (false, ⟨s.cancelAt, s.inv + 1, s.total, s.count, s.cache⟩)
  else if isDir then
    .ok (true, ⟨s.cancelAt, s.inv + 1, s.total, s.count + 1,
                s.cache ++ [(parent, epath, size)]⟩)
  else
    .ok (true, ⟨s.cancelAt, s.inv + 1, s.total + size, s.count,
                s.cache ++ [(parent, epath, size)]⟩)

/-! ### Tree materializer (src/main.rs:192-236, `collect`) -/

/-- Constant `MAX_COUNT` (src/main.rs:31). -/
def MAX_COUNT : Nat := 20

/-- Constant `MAX_DEPTH` (src/main.rs:32). -/
def MAX_DEPTH : Nat := 10

/-- The snapshot-tree node (src/main.rs:37-42). -/
inductive Entry where
  | mk (path : String) (size : Nat) (children : List Entry)
deriving Repr

/-- The node's path. -/
def Entry.path : Entry → String
  | .mk p _ _ => p

/-- The node's aggregate size in bytes. -/
def Entry.size : Entry → Nat
  | .mk _ s _ => s

/-- The node's (capped) children. -/
def Entry.children : Entry → List Entry
  | .mk _ _ c => c

/-- The scan cache as read by the materializer: a map from a directory path
to the insertion-ordered list of `(child path, size)` pairs, modelling the
`HashMap<String, Vec<(String, u64)>>`. -/
abbrev Cache := String → Option (List (String × Nat))

/-- The comparator of `filtered.sort_by(|a, b| b.1.cmp(&a.1))`
(src/main.rs:211): `a` sorts no later than `b` iff `b`'s size is at most
`a`'s — i.e. sizes descending. -/
def sizeDescRel (a b : String × Nat) : Prop := b.2 ≤ a.2

instance : DecidableRel sizeDescRel := fun a b => inferInstanceAs (Decidable (b.2 ≤ a.2))

instance : IsTotal (String × Nat) sizeDescRel := ⟨fun a b => Nat.le_total b.2 a.2⟩

instance : IsTrans (String × Nat) sizeDescRel := ⟨fun _ _ _ h1 h2 => Nat.le_trans h2 h1⟩

/-- Embedding of `collect` (src/main.rs:192-236).  Rust's `Vec::sort_by` is a
stable sort, embedded as `List.insertionSort` (stable) with the same
comparator.  `p.is_dir()` (src/main.rs:222) queries the live filesystem; that
external metadata is the explicit parameter `isDir`.  `depth > MAX_DEPTH`
returns no children (src/main.rs:200-202); a cache miss returns no children
(src/main.rs:204-208); the top-`count` truncation (src/main.rs:215) happens
before the self-referential-path filter (src/main.rs:217-220). -/
def collect (isDir : String → Bool) (cache : Cache) (count : Nat) :
    (path : String) → (depth : Nat) → List Entry := fun path depth =>
  if _h : depth > MAX_DEPTH then []
  else
    match cache path with
    | none => []
    | some c =>
        let filtered := List.insertionSort sizeDescRel c
        (filtered.take count).filterMap fun v =>
          if v.1 = path then none
          else
            some (Entry.mk v.1 v.2
              (if isDir v.1 then collect isDir cache count v.1 (depth + 1) else []))
termination_by _ depth => MAX_DEPTH + 1 - depth
decreasing_by simp at _h ⊢; omega

/-- Depth of a materialized forest: `0` for no nodes, and one more than the
deepest child forest otherwise.  A node of `collect`'s result at nesting
depth `d` below the materialization root contributes `d` to the root's
children forest depth. -/
def forestDepth : List Entry → Nat
  | [] => 0
  | .mk _ _ cs :: rest => max (1 + forestDepth cs) (forestDepth rest)

/-- Number of children of a node (used to distinguish concrete trees). -/
def Entry.childCount : Entry → Nat
  | .mk _ _ c => c.length

/-- Concrete cache fixture: the directory `r` holds a malformed
self-referential entry `("r", 100)` (the largest), plus `("a", 1)` and
`("b", 2)`. -/
def cacheSelf : Cache := fun p =>
  if p = "r" then some [("r", 100), ("a", 1), ("b", 2)] else none

/-- Concrete cache fixture: a chain of twelve nested directories
`c0/c1/.../c11`, deeper than `MAX_DEPTH` allows materializing. -/
def chainCache : Cache := fun p =>
  List.lookup p [("c0", [("c1", 1)]), ("c1", [("c2", 1)]), ("c2", [("c3", 1)]),
    ("c3", [("c4", 1)]), ("c4", [("c5", 1)]), ("c5", [("c6", 1)]),
    ("c6", [("c7", 1)]), ("c7", [("c8", 1)]), ("c8", [("c9", 1)]),
    ("c9", [("c10", 1)]), ("c10", [("c11", 1)])]

/-- Concrete cache fixture: `r` holds one child `a`, which itself holds a
child `b` — whether `a`'s subtree is materialized depends on the live
filesystem's answer to `is_dir("a")`. -/
def cacheNest : Cache := fun p =>
  if p = "r" then some [("a", 5)] else if p = "a" then some [("b", 3)] else none

/-! ### Sunburst layout (src/main.rs:423-465, `create_segments_recursive`)

`f64` angles are modelled by exact rationals; the claims settled against this
embedding are control-flow properties (which children are emitted, where the
running position advances) that do not hinge on rounding. -/

/-- Constant `MIN_SWEEP_SIZE` (src/main.rs:34). -/
def MIN_SWEEP_SIZE : ℚ := 1 / 100

/-- A ring segment (src/main.rs:386-391 together with the `CircleSegment`
geometry fields it stores).  `isDir` is the result of the `v.path.is_dir()`
filesystem query (src/main.rs:446). -/
structure Seg where
  epath : String
  isDir : Bool
  outer : ℚ
  inner : ℚ
  startAngle : ℚ
  sweepAngle : ℚ
deriving Repr, DecidableEq

/-- The sibling loop of `create_segments_recursive` (src/main.rs:435-462):
`total` is the parent entry's size, `pos` the running angular position.  A
child whose sweep is below `MIN_SWEEP_SIZE` is skipped by `continue`
(src/main.rs:437-439), which also skips the `pos += sweep` at the end of the
loop body (src/main.rs:461).  For an emitted child the segment is pushed,
then (for non-leaf children) the child ring is laid out over
`[pos, pos + sweep)` with radii grown by 20 (src/main.rs:450-459). -/
def segsGo (isDirF : String → Bool) :
    (total : ℚ) → List Entry → (outer inner start stop pos : ℚ) → List Seg
  | _, [], _, _, _, _, _ => []
  | total, Entry.mk vpath vsize vkids :: rest, outer, inner, start, stop, pos =>
      let sweep := (vsize : ℚ) / total * (stop - start)
      if sweep < MIN_SWEEP_SIZE then
        segsGo isDirF total rest outer inner start stop pos
      else
        Seg.mk vpath (isDirF vpath) outer inner pos sweep
          :: ((if vkids.isEmpty then []
               else segsGo isDirF (vsize : ℚ) vkids
                      (outer + 20) (inner + 20) pos (pos + sweep) pos)
              ++ segsGo isDirF total rest outer inner start stop (pos + sweep))
termination_by _ l _ _ _ _ _ => sizeOf l
decreasing_by all_goals (simp; try omega)

/-- Embedding of `Chart::create_segments_recursive` (src/main.rs:423-465):
lay out the children of `e` over the arc `[start, stop)` in the ring
`[inner, outer]`.  `refresh_segments` (src/main.rs:415-421) calls this with
`outer = 60`, `inner = 40`, `start = 0`, `stop = 2π`. -/
def createSegmentsRecursive (isDirF : String → Bool) (e : Entry)
    (outer inner start stop : ℚ) : List Seg :=
  segsGo isDirF (e.size : ℚ) e.children outer inner start stop start

/-- Modelled from the spec (§4.4): the layout variant in which a child whose
sweep falls below the threshold is still skipped, but the running angular
position *does* advance by its sweep before the skip ("pos still advances by
its sweep before being skipped, preserving relative position of subsequent
siblings").  Used only to compare the spec's description against the code. -/
def segsGoSpecModel (isDirF : String → Bool) :
    (total : ℚ) → List Entry → (outer inner start stop pos : ℚ) → List Seg
  | _, [], _, _, _, _, _ => []
  | total, Entry.mk vpath vsize vkids :: rest, outer, inner, start, stop, pos =>
      let sweep := (vsize : ℚ) / total * (stop - start)
      if sweep < MIN_SWEEP_SIZE then
        segsGoSpecModel isDirF total rest outer inner start stop (pos + sweep)
      else
        Seg.mk vpath (isDirF vpath) outer inner pos sweep
          :: ((if vkids.isEmpty then []
               else segsGoSpecModel isDirF (vsize : ℚ) vkids
                      (outer + 20) (inner + 20) pos (pos + sweep) pos)
              ++ segsGoSpecModel isDirF total rest outer inner start stop (pos + sweep))
termination_by _ l _ _ _ _ _ => sizeOf l
decreasing_by all_goals (simp; try omega)

/-- Modelled from the spec (§4.4), root call of the `pos`-advancing variant. -/
def createSegmentsSpecModel (isDirF : String → Bool) (e : Entry)
    (outer inner start stop : ℚ) : List Seg :=
  segsGoSpecModel isDirF (e.size : ℚ) e.children outer inner start stop start

/-! ### Polar hit test (src/main.rs:610-703, `Chart::paint`) -/

/-- Radius of the center circle (`Circle::new(center, 40.0)`,
src/main.rs:624; the same `40.0` is `INNER`, the innermost ring's inner
radius, src/main.rs:417). -/
def CENTER_RADIUS : ℚ := 40

/-- One segment's hover condition (src/main.rs:682-685): squared cursor
distance within `(inner², outer²]` and normalized angle within
`[start, start + sweep)`. -/
def segHit (d2 angle : ℚ) (s : Seg) : Bool :=
  decide (d2 ≤ s.outer * s.outer) && decide (s.inner * s.inner < d2) &&
    decide (s.startAngle ≤ angle) && decide (angle < s.startAngle + s.sweepAngle)

/-- The segment loop of `Chart::paint` (src/main.rs:672-701) overwrites
`hovered_entry` for every matching segment, so the last match in list order
wins. -/
def lastHit (d2 angle : ℚ) : List Seg → Option Seg
  | [] => none
  | s :: rest =>
      match lastHit d2 angle rest with
      | some r => some r
      | none => if segHit d2 angle s then some s else none

/-- The hit-test outcome: the center disc, a single ring segment, or
nothing. -/
inductive Hover where
  | center
  | segment (s : Seg)
  | background
deriving Repr, DecidableEq

/-- The hover result of one paint pass given the cursor's squared distance
`d2` from the chart center and its normalized polar angle (src/main.rs:
621-701 together with the `MouseMove` dispatch, src/main.rs:527-559, which
consults `is_hovered_center` before `is_hovered_child`).  The external kurbo
`Circle::contains` call (src/main.rs:626) is modelled from the spec (§4.5) as
closed-disc membership: `dx² + dy² ≤ center_radius²` is hovered. -/
def chartHover (d2 angle : ℚ) (segs : List Seg) : Hover :=
  if d2 ≤ CENTER_RADIUS * CENTER_RADIUS then Hover.center
  else
    match lastHit d2 angle segs with
    | some s => Hover.segment s
    | none => Hover.background


/-! ## Helper lemmas about the scanner -/

/-- If the callback always continues and never fails, the scan of any listing
completes and totals exactly the file-size sum of the listing. -/
theorem scanList_total_of_continue {σ ε : Type} (cb : Cb σ ε)
    (hcb : ∀ s p q b n, ∃ s', cb s p q b n = .ok (true, s')) :
    ∀ (path : FSPath) (l : List (String × FSTree)) (total : Nat) (s : σ),
      ∃ s', scanList cb path l total s = .ok (total + fileSumList l, true, s') := by
  intro path l total s
  induction path, l, total, s using scanList.induct cb with
  | case1 path total s =>
      exact ⟨s, by simp [scanList, fileSumList]⟩
  | case2 path name sz rest total s e hcbe =>
      obtain ⟨s', hs'⟩ := hcb s path (path ++ [name]) false sz
      simp [hs'] at hcbe
  | case3 path name sz rest total s s' hok ih =>
      obtain ⟨s'', hs''⟩ := ih
      refine ⟨s'', ?_⟩
      simp [scanList, hok, hs'', fileSumList, fileSum]
      omega
  | case4 path name sz rest total s cont s' hok hcont =>
      obtain ⟨s'', hs''⟩ := hcb s path (path ++ [name]) false sz
      rw [hok] at hs''
      simp at hs''
      simp [hs''.1] at hcont
  | case5 path name es rest total s e herr ih =>
      obtain ⟨s', hs'⟩ := ih
      rw [herr] at hs'
      simp at hs'
  | case6 path name es rest total s sub s' e hcbe hrec ih =>
      obtain ⟨s'', hs''⟩ := hcb s' path (path ++ [name]) true sub
      simp [hs''] at hcbe
  | case7 path name es rest total s sub s' s2 hrec hok ihes ih =>
      obtain ⟨s3, hs3⟩ := ih
      obtain ⟨s4, hs4⟩ := ihes
      rw [hrec] at hs4
      simp at hs4
      obtain ⟨hsub, hs4'⟩ := hs4
      subst hsub
      refine ⟨s3, ?_⟩
      simp [scanList, hrec, hok, hs3, fileSumList, fileSum]
      omega
  | case8 path name es rest total s sub s' cont s2 hok hcont hrec ihes =>
      obtain ⟨s'', hs''⟩ := hcb s' path (path ++ [name]) true sub
      rw [hok] at hs''
      simp at hs''
      simp [hs''.1] at hcont
  | case9 path name es rest total s sub completed s' hrec hcompleted ihes =>
      obtain ⟨s4, hs4⟩ := ihes
      rw [hrec] at hs4
      simp at hs4
      exact absurd hs4.2.1 (by simpa using hcompleted)

/-- The scan driven by the recording callback succeeds and its recorded trace
is exactly the post-order event list `postEvents`. -/
theorem scanList_record_trace :
    ∀ (path : FSPath) (l : List (String × FSTree)) (total : Nat) (acc : List ScanEvent),
      scanList recordCb path l total acc
        = .ok (total + fileSumList l, true, acc ++ postEvents path l) := by
  intro path l total acc
  induction path, l, total, acc using scanList.induct recordCb with
  | case1 path total s =>
      simp [scanList, fileSumList, postEvents]
  | case2 path name sz rest total s e hcbe =>
      simp [recordCb] at hcbe
  | case3 path name sz rest total s s' hok ih =>
      simp [recordCb] at hok
      subst hok
      simp only [scanList, recordCb]
      rw [ih]
      simp [fileSumList, fileSum, postEvents, Nat.add_assoc]
  | case4 path name sz rest total s cont s' hok hcont =>
      simp [recordCb] at hok
      simp [hok.1] at hcont
  | case5 path name es rest total s e herr ih =>
      rw [herr] at ih
      simp at ih
  | case6 path name es rest total s sub s' e hcbe hrec ih =>
      simp [recordCb] at hcbe
  | case7 path name es rest total s sub s' s2 hrec hok ihes ih =>
      rw [hrec] at ihes
      simp at ihes
      obtain ⟨hsub, hs'⟩ := ihes
      subst hsub
      subst hs'
      simp [recordCb] at hok
      subst hok
      simp only [scanList]
      rw [hrec]
      simp only [recordCb]
      simp only [List.append_assoc, List.singleton_append] at ih ⊢
      simp [ih, fileSumList, fileSum, postEvents, Nat.add_assoc]
  | case8 path name es rest total s sub s' cont s2 hok hcont hrec ihes =>
      simp [recordCb] at hok
      simp [hok.1] at hcont
  | case9 path name es rest total s sub completed s' hrec hcompleted ihes =>
      rw [hrec] at ihes
      simp at ihes
      exact absurd ihes.2.1 (by simpa using hcompleted)

/-- A canceled recursive call makes the enclosing level return its own
accumulated partial total with `completed_fully = false`, leaving the
callback state exactly as the recursive call left it (so the remaining
siblings are neither scanned nor reported). -/
theorem scanList_dir_cancel {σ ε : Type} (cb : Cb σ ε)
    (path : FSPath) (name : String) (es rest : List (String × FSTree))
    (total : Nat) (s : σ) (sub : Nat) (s' : σ)
    (h : scanList cb (path ++ [name]) es 0 s = .ok (sub, false, s')) :
    scanList cb path ((name, FSTree.dir es) :: rest) total s = .ok (total, false, s') := by
  simp only [scanList]
  rw [h]
  simp

/-- The state a canceled scan returns is the output state of the single
refusing callback invocation: after the callback answers `false` the scanner
performs no further invocation at any level. -/
theorem scanList_cancel_last_state {σ ε : Type} (cb : Cb σ ε) :
    ∀ (path : FSPath) (l : List (String × FSTree)) (total : Nat) (s : σ),
      ∀ (t : Nat) (sF : σ), scanList cb path l total s = .ok (t, false, sF) →
        ∃ s₀ p q b n, cb s₀ p q b n = .ok (false, sF) := by
  intro path l total s
  induction path, l, total, s using scanList.induct cb with
  | case1 path total s =>
      intro t sF h
      simp [scanList] at h
  | case2 path name sz rest total s e hcbe =>
      intro t sF h
      simp only [scanList] at h
      rw [hcbe] at h
      simp at h
  | case3 path name sz rest total s s' hok ih =>
      intro t sF h
      simp only [scanList] at h
      rw [hok] at h
      simp only [if_true] at h
      exact ih t sF h
  | case4 path name sz rest total s cont s' hok hcont =>
      intro t sF h
      simp only [scanList] at h
      rw [hok] at h
      simp only [Bool.not_eq_true] at hcont
      subst hcont
      simp at h
      exact ⟨s, path, path ++ [name], false, sz, by rw [hok, h.2]⟩
  | case5 path name es rest total s e herr ih =>
      intro t sF h
      simp only [scanList] at h
      rw [herr] at h
      simp at h
  | case6 path name es rest total s sub s' e hcbe hrec ih =>
      intro t sF h
      simp only [scanList] at h
      rw [hrec] at h
      simp only [if_true] at h
      rw [hcbe] at h
      simp at h
  | case7 path name es rest total s sub s' s2 hrec hok ihes ih =>
      intro t sF h
      simp only [scanList] at h
      rw [hrec] at h
      simp only [if_true] at h
      rw [hok] at h
      simp only [if_true] at h
      exact ih t sF h
  | case8 path name es rest total s sub s' cont s2 hok hcont hrec ihes =>
      intro t sF h
      simp only [scanList] at h
      rw [hrec] at h
      simp only [if_true] at h
      rw [hok] at h
      simp only [Bool.not_eq_true] at hcont
      subst hcont
      simp at h
      exact ⟨s', path, path ++ [name], true, sub, by rw [hok, h.2]⟩
  | case9 path name es rest total s sub completed s' hrec hcompleted ihes =>
      intro t sF h
      simp only [scanList] at h
      rw [hrec] at h
      simp only [Bool.not_eq_true] at hcompleted
      subst hcompleted
      simp at h
      exact h.2 ▸ ihes sub s' hrec

/-- A refusing worker-callback invocation records nothing: the scan cache,
the running file-size total and the directory counter are unchanged. -/
theorem workerCb_refuse_records_nothing (s : WorkerState) (p q : FSPath) (b : Bool) (n : Nat)
    (s' : WorkerState) (h : workerCb s p q b n = .ok (false, s')) :
    s'.cache = s.cache ∧ s'.total = s.total ∧ s'.count = s.count := by
  unfold workerCb at h
  split at h
  · simp at h
    subst h
    exact ⟨rfl, rfl, rfl⟩
  · split at h <;> simp at h

/-- The length of the post-order trace equals the number of entries. -/
theorem postEvents_length :
    ∀ (p : FSPath) (l : List (String × FSTree)),
      (postEvents p l).length = numEntries l := by
  intro p l
  induction p, l using postEvents.induct with
  | case1 p => simp [postEvents, numEntries]
  | case2 p name sz rest ih =>
      simp [postEvents, numEntries, ih]
      omega
  | case3 p name es rest ihes ih =>
      simp [postEvents, numEntries, ihes, ih]
      omega

/-! ## Claim theorems: scanner (C1, C3, C6, C10) -/

/-- C1: for every directory tree with known file sizes, when the scan
completes fully (the callback always answers continue and never fails, and
directory reads cannot fail in the tree model), the total reported by
`get_directory_size_recursive` equals the exact sum of the sizes of all
files anywhere beneath the scanned directory, and the call returns that sum
together with `completed_fully = true`.  The statement quantifies over every
listing, so it applies in particular to each directory's recursive call,
whose result is precisely the size reported in that directory's event:
every directory's reported size is its exact descendant file-size sum,
uncapped and independent of the materializer's top-K cutoff. -/
theorem claim_C1_scanner_aggregation {σ ε : Type} (cb : Cb σ ε)
    (hcb : ∀ s p q b n, ∃ s', cb s p q b n = .ok (true, s'))
    (path : FSPath) (entries : List (String × FSTree)) (s : σ) :
    ∃ s', getDirectorySizeRecursive cb path entries s
        = .ok (fileSumList entries, true, s') := by
  have h := scanList_total_of_continue cb hcb path entries 0 s
  simpa [getDirectorySizeRecursive] using h

/-- Witness for C1 at the spec's §8 scenario tree
`root{A: 3_000_000 (file), dir B{C: 1_000_000 (file)}}`. -/
theorem claim_C1_scanner_aggregation_witness :
    ∃ s', getDirectorySizeRecursive (fun s _ _ _ _ => .ok (true, s) : Cb Unit Unit) []
        [("A", FSTree.file 3000000), ("B", FSTree.dir [("C", FSTree.file 1000000)])] ()
        = .ok (4000000, true, s') := by
  have h := claim_C1_scanner_aggregation (fun s _ _ _ _ => .ok (true, s) : Cb Unit Unit)
      (fun s p q b n => ⟨s, rfl⟩) []
      [("A", FSTree.file 3000000), ("B", FSTree.dir [("C", FSTree.file 1000000)])] ()
  simpa [fileSumList, fileSum] using h

/-- C6: for a fully completed scan, the scanner invokes `on_entry` exactly
once per visited entry — the recorded trace is exactly the post-order event
list, whose length is the number of entries — and each event passes the
parent's path, the entry's own path, the directory flag and the size; a
directory's own event (carrying the exact subtree file-size sum) comes after
all events of its descendants and before the events of its later siblings,
as the decomposition in the second conjunct states. -/
theorem claim_C6_postorder_events :
    (∀ (path : FSPath) (l : List (String × FSTree)) (acc : List ScanEvent),
        scanList recordCb path l 0 acc
          = .ok (fileSumList l, true, acc ++ postEvents path l))
    ∧ (∀ (p : FSPath) (name : String) (es rest : List (String × FSTree)),
        postEvents p ((name, FSTree.dir es) :: rest)
          = postEvents (p ++ [name]) es
              ++ ⟨p, p ++ [name], true, fileSumList es⟩ :: postEvents p rest)
    ∧ (∀ (p : FSPath) (l : List (String × FSTree)),
        (postEvents p l).length = numEntries l) := by
  refine ⟨?_, ?_, postEvents_length⟩
  · intro path l acc
    have h := scanList_record_trace path l 0 acc
    simpa using h
  · intro p name es rest
    simp [postEvents]

/-- C10: when the callback refuses an entry (returns `false`), the entry's
size was already added to the running total before the callback's answer is
observed, so the partial total returned by that recursion level includes the
size of the very entry whose event the consumer refused to record — for a
file its raw size, for a completed directory its full subtree total. -/
theorem claim_C10_refused_entry_counted {σ ε : Type} (cb : Cb σ ε)
    (path : FSPath) (name : String) (rest : List (String × FSTree))
    (total : Nat) (s : σ) :
    (∀ (sz : Nat) (s' : σ),
        cb s path (path ++ [name]) false sz = .ok (false, s') →
        scanList cb path ((name, FSTree.file sz) :: rest) total s
          = .ok (total + sz, false, s'))
    ∧ (∀ (es : List (String × FSTree)) (sub : Nat) (s₁ s₂ : σ),
        scanList cb (path ++ [name]) es 0 s = .ok (sub, true, s₁) →
        cb s₁ path (path ++ [name]) true sub = .ok (false, s₂) →
        scanList cb path ((name, FSTree.dir es) :: rest) total s
          = .ok (total + sub, false, s₂)) := by
  constructor
  · intro sz s' h
    simp only [scanList]
    rw [h]
    simp
  · intro es sub s₁ s₂ hrec hcb
    simp only [scanList]
    rw [hrec]
    simp only [if_true]
    rw [hcb]
    simp

/-- Witness for C10: a callback that refuses the very first file still yields
a partial total containing that file's size. -/
theorem claim_C10_refused_entry_counted_witness :
    scanList (fun s _ _ _ _ => .ok (false, s) : Cb Unit Unit) []
        [("a", FSTree.file 5)] 0 ()
      = .ok (5, false, ()) :=
  (claim_C10_refused_entry_counted (fun s _ _ _ _ => .ok (false, s) : Cb Unit Unit)
      [] "a" [] 0 ()).1 5 () rfl

/-- Counterexample to C3 as stated: scanning `[a: 1 byte, b: 2 bytes]` with
the worker callback when the cancel signal arrives before the second
invocation (ghost clock `cancelAt = 1`).  Exactly K = 1 file event was
recorded (file `a`, so the worker's recorded total is 1, and the cache holds
exactly that one record), yet the scanner's returned partial total is 3: the
refused entry `b`'s size was already added.  So the returned partial total
does not equal the sum of the K recorded files' sizes. -/
theorem claim_C3_counterexample :
    scanList workerCb [] [("a", FSTree.file 1), ("b", FSTree.file 2)] 0
        ⟨1, 0, 0, 0, []⟩
      = .ok (3, false, ⟨1, 2, 1, 0, [([], ["a"], 1)]⟩)
    ∧ (WorkerState.mk 1 2 1 0 [([], ["a"], 1)]).total = 1
    ∧ (WorkerState.mk 1 2 1 0 [([], ["a"], 1)]).cache.length = 1
    ∧ (3 : Nat) ≠ 1 := by
  refine ⟨?_, rfl, rfl, by decide⟩
  simp [scanList, workerCb]

/-- C3 as amended: when the callback signals cancel, (i) every enclosing
recursion level stops processing further siblings and returns
`completed_fully = false` with the partial total accumulated at that level
and the callback state as the canceled recursive call left it; (ii) the
final state of a canceled scan is the output state of the single refusing
callback invocation, so no callback invocation happens after cancellation is
observed; and (iii) a refusing worker callback records nothing, so no cache
entry, total or counter update occurs at or after the refusal — the cache
keeps exactly the K events recorded before cancellation.  (The original
claim's equality "partial total = sum of the K recorded files' sizes" is
false, see the counterexample: the partial total includes the refused
entry's size and omits recorded files inside abandoned subtrees.) -/
theorem claim_C3_cancellation_amended {σ ε : Type} (cb : Cb σ ε) :
    (∀ (path : FSPath) (name : String) (es rest : List (String × FSTree))
        (total : Nat) (s : σ) (sub : Nat) (s' : σ),
        scanList cb (path ++ [name]) es 0 s = .ok (sub, false, s') →
        scanList cb path ((name, FSTree.dir es) :: rest) total s
          = .ok (total, false, s'))
    ∧ (∀ (path : FSPath) (l : List (String × FSTree)) (total : Nat) (s : σ)
        (t : Nat) (sF : σ),
        scanList cb path l total s = .ok (t, false, sF) →
        ∃ s₀ p q b n, cb s₀ p q b n = .ok (false, sF))
    ∧ (∀ (w : WorkerState) (p q : FSPath) (b : Bool) (n : Nat) (w' : WorkerState),
        workerCb w p q b n = .ok (false, w') →
        w'.cache = w.cache ∧ w'.total = w.total ∧ w'.count = w.count) :=
  ⟨fun path name es rest total s sub s' h =>
      scanList_dir_cancel cb path name es rest total s sub s' h,
    fun path l total s t sF h => scanList_cancel_last_state cb path l total s t sF h,
    fun w p q b n w' h => workerCb_refuse_records_nothing w p q b n w' h⟩

/-- Witness for the amended C3: a refused subtree scan makes the enclosing
level return its own partial total (here 0) with `completed_fully = false`. -/
theorem claim_C3_cancellation_amended_witness :
    scanList (fun s _ _ _ _ => .ok (false, s) : Cb Unit Unit) []
        [("d", FSTree.dir [("x", FSTree.file 7)])] 0 ()
      = .ok (0, false, ()) :=
  (claim_C3_cancellation_amended (fun s _ _ _ _ => .ok (false, s) : Cb Unit Unit)).1
    [] "d" [("x", FSTree.file 7)] [] 0 () 7 () (by simp [scanList])

/-! ## Helper lemmas about the materializer -/

/-- Inserting into the sorted remainder keeps, for each size value, the
original relative order: `orderedInsert` never moves an element past one of
equal size (the comparator is non-strict), so filtering by one size value is
unchanged up to putting `x` first. -/
theorem orderedInsert_filter_key (x : String × Nat) (n : Nat) :
    ∀ l : List (String × Nat),
      (List.orderedInsert sizeDescRel x l).filter (fun v => v.2 == n)
        = ((x :: l).filter (fun v => v.2 == n)) := by
  intro l
  induction l with
  | nil => rfl
  | cons y ys ih =>
      by_cases hr : sizeDescRel x y
      · simp [List.orderedInsert, hr]
      · have hxy : x.2 < y.2 := Nat.not_le.mp hr
        by_cases hy : (y.2 == n) = true
        · have hyn : y.2 = n := by simpa using hy
          have hx : (x.2 == n) = false := by
            simp only [beq_eq_false_iff_ne, ne_eq]
            omega
          simp [List.orderedInsert, hr, List.filter_cons, hy, hx] at ih ⊢
          exact ih
        · have hy' : (y.2 == n) = false := by simpa using hy
          simp [List.orderedInsert, hr, List.filter_cons, hy'] at ih ⊢
          exact ih

/-- Stability of the embedded sort: for every size value, the elements of
that size appear in the sorted list in their original (insertion) order. -/
theorem insertionSort_filter_key (n : Nat) :
    ∀ l : List (String × Nat),
      (List.insertionSort sizeDescRel l).filter (fun v => v.2 == n)
        = l.filter (fun v => v.2 == n) := by
  intro l
  induction l with
  | nil => rfl
  | cons x xs ih =>
      simp only [List.insertionSort]
      rw [orderedInsert_filter_key]
      simp [List.filter_cons, ih]

/-- Projecting the `(path, size)` pairs out of the materializer's
`filter_map` is the same as filtering out the self-referential pairs. -/
theorem filterMap_entry_pairs (path : String) (g : String × Nat → List Entry) :
    ∀ l : List (String × Nat),
      ((l.filterMap fun v =>
          if v.1 = path then none else some (Entry.mk v.1 v.2 (g v))).map
          (fun e => (e.path, e.size)))
        = l.filter (fun v => !(v.1 == path)) := by
  intro l
  induction l with
  | nil => rfl
  | cons v vs ih =>
      by_cases hv : v.1 = path
      · simp [List.filterMap_cons, List.filter_cons, hv, ih]
      · simp only [List.filterMap_cons, hv, if_false, List.map_cons, List.filter_cons]
        rw [ih]
        simp [Entry.path, Entry.size, hv]

/-- A materialized node never has more than `count` children. -/
theorem collect_length_le (isDir : String → Bool) (cache : Cache) (k : Nat)
    (path : String) (depth : Nat) : (collect isDir cache k path depth).length ≤ k := by
  rw [collect.eq_def]
  split
  · simp
  · split
    · simp
    · refine le_trans (List.length_filterMap_le _ _) ?_
      simp [List.length_take]

/-- The `(path, size)` pairs of a materialized node's children are the stable
size-descending sort of the cache list, truncated to the first `k`, with
self-referential pairs removed after the truncation. -/
theorem collect_children_pairs (isDir : String → Bool) (cache : Cache) (k : Nat)
    (path : String) (depth : Nat) (c : List (String × Nat))
    (hdep : ¬ depth > MAX_DEPTH) (hc : cache path = some c) :
    (collect isDir cache k path depth).map (fun e => (e.path, e.size))
      = ((List.insertionSort sizeDescRel c).take k).filter (fun v => !(v.1 == path)) := by
  rw [collect.eq_def]
  simp only [hdep, dite_false, hc]
  exact filterMap_entry_pairs path _ _

/-- A forest is no deeper than `m` when each root's child forest is deeper
than `m` by at most one less. -/
theorem forestDepth_le_of_mem {l : List Entry} {m : Nat}
    (h : ∀ p sz cs, Entry.mk p sz cs ∈ l → forestDepth cs + 1 ≤ m) :
    forestDepth l ≤ m := by
  induction l with
  | nil => simp [forestDepth]
  | cons e rest ih =>
      cases e with
      | mk p sz cs =>
          simp only [forestDepth]
          apply max_le
          · have := h p sz cs (by simp)
            omega
          · exact ih fun p' sz' cs' hm => h p' sz' cs' (by simp [hm])

/-- Fuel-indexed depth bound for `collect`: starting at depth counter
`depth`, the materialized forest is at most `MAX_DEPTH + 1 - depth` deep. -/
theorem collect_forestDepth_aux (isDir : String → Bool) (cache : Cache) (k : Nat) :
    ∀ (n depth : Nat) (path : String), MAX_DEPTH + 1 - depth ≤ n →
      forestDepth (collect isDir cache k path depth) ≤ MAX_DEPTH + 1 - depth := by
  intro n
  induction n with
  | zero =>
      intro depth path hn
      have hd : depth > MAX_DEPTH := by omega
      rw [collect.eq_def]
      simp [hd, forestDepth]
  | succ n ih =>
      intro depth path hn
      by_cases hd : depth > MAX_DEPTH
      · rw [collect.eq_def]
        simp [hd, forestDepth]
      · rw [collect.eq_def]
        simp only [hd, dite_false]
        cases hc : cache path with
        | none => simp [forestDepth]
        | some c =>
            apply forestDepth_le_of_mem
            intro p sz cs hmem
            rw [List.mem_filterMap] at hmem
            obtain ⟨v, hv, hveq⟩ := hmem
            by_cases hvp : v.1 = path
            · simp [hvp] at hveq
            · simp only [hvp, if_false, Option.some.injEq, Entry.mk.injEq] at hveq
              obtain ⟨hp, hsz, hcs⟩ := hveq
              by_cases hdir : isDir v.1 = true
              · simp only [hdir, if_true] at hcs
                have hrec := ih (depth + 1) v.1 (by omega)
                rw [hcs] at hrec
                omega
              · rw [if_neg hdir] at hcs
                rw [← hcs]
                simp only [forestDepth]
                omega

/-- Fuel-indexed frame lemma: `collect` consults the filesystem's
is-directory metadata only at paths recorded in the cache's child lists, so
two metadata oracles agreeing there produce identical trees. -/
theorem collect_isDir_frame (isDir1 isDir2 : String → Bool) (cache : Cache) (k : Nat)
    (h : ∀ parent l, cache parent = some l → ∀ v ∈ l, isDir1 v.1 = isDir2 v.1) :
    ∀ (n depth : Nat) (path : String), MAX_DEPTH + 1 - depth ≤ n →
      collect isDir1 cache k path depth = collect isDir2 cache k path depth := by
  intro n
  induction n with
  | zero =>
      intro depth path hn
      have hd : depth > MAX_DEPTH := by omega
      rw [collect.eq_def, collect.eq_def]
      simp [hd]
  | succ n ih =>
      intro depth path hn
      by_cases hd : depth > MAX_DEPTH
      · rw [collect.eq_def, collect.eq_def]
        simp [hd]
      · rw [collect.eq_def, collect.eq_def]
        simp only [hd, dite_false]
        cases hc : cache path with
        | none => rfl
        | some c =>
            apply List.filterMap_congr
            intro v hv
            have hvc : v ∈ c := by
              have h1 : v ∈ List.insertionSort sizeDescRel c := List.mem_of_mem_take hv
              exact (List.perm_insertionSort sizeDescRel c).mem_iff.mp h1
            by_cases hvp : v.1 = path
            · simp [hvp]
            · have hdir := h path c hc v hvc
              simp only [hvp, if_false, Option.some.injEq, Entry.mk.injEq, true_and]
              rw [hdir, ih (depth + 1) v.1 (by omega)]

/-! ## Claim theorems: materializer (C4, C5, C8, C9) -/

/-- Counterexample to C4 as stated: for the cache holding
`[("r",100), ("a",1), ("b",2)]` under `"r"` and `k = 2`, the materialized
node for `"r"` has the single child `("b", 2)`.  That is neither the two
largest cache entries `[("r",100), ("b",2)]` (the self-entry `"r"` is in
the top 2 and gets dropped after truncation) nor the two largest non-self
entries `[("b",2), ("a",1)]`. -/
theorem claim_C4_counterexample :
    (collect (fun _ => false) cacheSelf 2 "r" 0).map (fun e => (e.path, e.size)) = [("b", 2)]
    ∧ ((List.insertionSort sizeDescRel [("r", 100), ("a", 1), ("b", 2)]).take 2)
        = [("r", 100), ("b", 2)]
    ∧ ([("b", 2)] : List (String × Nat)) ≠ [("r", 100), ("b", 2)]
    ∧ ([("b", 2)] : List (String × Nat)) ≠ [("b", 2), ("a", 1)] := by
  refine ⟨?_, ?_, by decide, by decide⟩
  · simp [collect, cacheSelf, List.insertionSort, List.orderedInsert, sizeDescRel,
      MAX_DEPTH, Entry.path, Entry.size]
  · simp [List.insertionSort, List.orderedInsert, sizeDescRel]

/-- C4 as amended: a materialized node has at most `k` children; its
children's `(path, size)` pairs are, in order, the stable size-descending
sort of that path's cache entries (sorted descending, equal sizes kept in
cache insertion order — conjuncts three to five: the sort is a sorted
permutation that preserves the relative order of entries of every size),
truncated to the first `k`, with any self-referential entry removed after
the truncation.  In particular, when no self-referential entry is among the
`k` largest, the children are exactly the `k` largest entries by size with
ties broken by insertion order; a self-referential entry inside the top `k`
is dropped without replacement (see C9). -/
theorem claim_C4_topk_children (isDir : String → Bool) (cache : Cache) (k : Nat)
    (path : String) (depth : Nat) (c : List (String × Nat))
    (hdep : ¬ depth > MAX_DEPTH) (hc : cache path = some c) :
    (collect isDir cache k path depth).length ≤ k
    ∧ (collect isDir cache k path depth).map (fun e => (e.path, e.size))
        = ((List.insertionSort sizeDescRel c).take k).filter (fun v => !(v.1 == path))
    ∧ List.Sorted sizeDescRel (List.insertionSort sizeDescRel c)
    ∧ (List.insertionSort sizeDescRel c).Perm c
    ∧ (∀ n, (List.insertionSort sizeDescRel c).filter (fun v => v.2 == n)
        = c.filter (fun v => v.2 == n)) :=
  ⟨collect_length_le isDir cache k path depth,
    collect_children_pairs isDir cache k path depth c hdep hc,
    List.sorted_insertionSort sizeDescRel c,
    List.perm_insertionSort sizeDescRel c,
    fun n => insertionSort_filter_key n c⟩

/-- Witness for the amended C4 at the self-referential fixture cache. -/
theorem claim_C4_topk_children_witness :
    (collect (fun _ => false) cacheSelf 2 "r" 0).length ≤ 2
    ∧ (collect (fun _ => false) cacheSelf 2 "r" 0).map (fun e => (e.path, e.size))
        = ((List.insertionSort sizeDescRel [("r", 100), ("a", 1), ("b", 2)]).take 2).filter
            (fun v => !(v.1 == "r"))
    ∧ List.Sorted sizeDescRel (List.insertionSort sizeDescRel [("r", 100), ("a", 1), ("b", 2)])
    ∧ (List.insertionSort sizeDescRel [("r", 100), ("a", 1), ("b", 2)]).Perm
        [("r", 100), ("a", 1), ("b", 2)]
    ∧ (∀ n, (List.insertionSort sizeDescRel [("r", 100), ("a", 1), ("b", 2)]).filter
          (fun v => v.2 == n)
        = ([("r", 100), ("a", 1), ("b", 2)] : List (String × Nat)).filter (fun v => v.2 == n)) :=
  claim_C4_topk_children (fun _ => false) cacheSelf 2 "r" 0
    [("r", 100), ("a", 1), ("b", 2)] (by decide) (by simp [cacheSelf])

/-- C9: the top-`max_children` truncation is applied before the
self-referential-path filter — for the fixture cache whose `"r"` list holds
two non-self entries (at least `k = 2` of them), the materialized node still
has only one child, because the self-entry `("r", 100)` occupied a top-2
slot and was dropped without being replaced by the next-largest entry. -/
theorem claim_C9_truncation_before_self_filter :
    (((cacheSelf "r").getD []).filter (fun v => !(v.1 == "r"))).length = 2
    ∧ (collect (fun _ => false) cacheSelf 2 "r" 0).length = 1
    ∧ 1 < 2 := by
  refine ⟨by simp [cacheSelf], ?_, by decide⟩
  simp [collect, cacheSelf, List.insertionSort, List.orderedInsert, sizeDescRel, MAX_DEPTH]

set_option maxHeartbeats 2000000 in
/-- Counterexample to C5 as stated: materializing the twelve-level chain
fixture from `"c0"` yields a tree whose children forest reaches nesting
depth 11 below the materialization root — strictly greater than
`MAX_DEPTH = 10`. -/
theorem claim_C5_counterexample :
    forestDepth (collect (fun _ => true) chainCache 20 "c0" 0) = 11
    ∧ 11 > MAX_DEPTH := by
  refine ⟨?_, by decide⟩
  simp [collect, chainCache, List.insertionSort, List.orderedInsert, sizeDescRel,
    MAX_DEPTH, forestDepth, List.lookup]

/-- C5 as amended: recursion stops (returns empty children) once the depth
counter exceeds `MAX_DEPTH` (third conjunct), and consequently no
materialized node sits at nesting depth greater than `MAX_DEPTH + 1` below
the materialization root: children produced with depth counter `d` sit at
nesting depth `d + 1`, and the counter starts at 0 for the root's direct
children, so the reachable depth is `MAX_DEPTH + 1` — one more than the
claim's bound of `MAX_DEPTH`, as the counterexample shows. -/
theorem claim_C5_depth_cap_amended (isDir : String → Bool) (cache : Cache) (k : Nat) :
    (∀ path, forestDepth (collect isDir cache k path 0) ≤ MAX_DEPTH + 1)
    ∧ (∀ depth path,
        forestDepth (collect isDir cache k path depth) ≤ MAX_DEPTH + 1 - depth)
    ∧ (∀ depth path, depth > MAX_DEPTH → collect isDir cache k path depth = []) := by
  refine ⟨?_, ?_, ?_⟩
  · intro path
    simpa using collect_forestDepth_aux isDir cache k (MAX_DEPTH + 1) 0 path (by omega)
  · intro depth path
    exact collect_forestDepth_aux isDir cache k (MAX_DEPTH + 1 - depth) depth path le_rfl
  · intro depth path hd
    rw [collect.eq_def]
    simp [hd]

/-- Witness for the amended C5: beyond the cap the materializer returns no
children even though the chain cache has data for the path. -/
theorem claim_C5_depth_cap_amended_witness :
    collect (fun _ => true) chainCache 20 "c5" 11 = [] :=
  (claim_C5_depth_cap_amended (fun _ => true) chainCache 20).2.2 11 "c5" (by decide)

/-- Counterexample to C8 as stated: `collect` is not a function of the cache
snapshot and parameters alone — it queries the live filesystem through
`p.is_dir()`.  With the same cache, root, `max_children` and `max_depth`,
two filesystem states (one where `"a"` is a directory, one where it is not)
produce different trees. -/
theorem claim_C8_counterexample :
    (collect (fun _ => false) cacheNest 20 "r" 0).map Entry.childCount = [0]
    ∧ (collect (fun p => p == "a" || p == "b") cacheNest 20 "r" 0).map Entry.childCount = [1]
    ∧ collect (fun _ => false) cacheNest 20 "r" 0
        ≠ collect (fun p => p == "a" || p == "b") cacheNest 20 "r" 0 := by
  have h1 : (collect (fun _ => false) cacheNest 20 "r" 0).map Entry.childCount = [0] := by
    simp [collect, cacheNest, List.insertionSort, List.orderedInsert, sizeDescRel,
      MAX_DEPTH, Entry.childCount]
  have h2 : (collect (fun p => p == "a" || p == "b") cacheNest 20 "r" 0).map Entry.childCount
      = [1] := by
    simp [collect, cacheNest, List.insertionSort, List.orderedInsert, sizeDescRel,
      MAX_DEPTH, Entry.childCount]
  refine ⟨h1, h2, fun h => ?_⟩
  rw [h] at h1
  exact absurd (h1.symm.trans h2) (by decide)

/-- C8 as amended: the materializer is deterministic and pure given a fixed
cache snapshot, the parameters, and the filesystem's is-directory metadata:
it consults the metadata only at paths recorded in the cache's child lists,
so any two metadata oracles that agree there yield identical `Entry` trees
(and the embedding as a total function witnesses that it mutates nothing).
It is, however, not free of I/O: it queries `PathBuf::is_dir` during
materialization, so its output may change when the filesystem changes
between two runs over the same cache — see the counterexample. -/
theorem claim_C8_materializer_determinism (isDir1 isDir2 : String → Bool)
    (cache : Cache) (k : Nat)
    (h : ∀ parent l, cache parent = some l → ∀ v ∈ l, isDir1 v.1 = isDir2 v.1) :
    ∀ (depth : Nat) (path : String),
      collect isDir1 cache k path depth = collect isDir2 cache k path depth :=
  fun depth path =>
    collect_isDir_frame isDir1 isDir2 cache k h (MAX_DEPTH + 1 - depth) depth path le_rfl

/-- Witness for the amended C8: two different metadata oracles that agree on
the cached child paths `"a"` and `"b"` materialize the same tree. -/
theorem claim_C8_materializer_determinism_witness :
    collect (fun p => p == "a" || p == "b") cacheNest 20 "r" 0
      = collect (fun p => !(p == "zzz")) cacheNest 20 "r" 0 := by
  refine claim_C8_materializer_determinism _ _ cacheNest 20 ?_ 0 "r"
  intro parent l hpl v hv
  by_cases h1 : parent = "r"
  · simp [cacheNest, h1] at hpl
    subst hpl
    simp at hv
    subst hv
    decide
  · by_cases h2 : parent = "a"
    · simp [cacheNest, h1, h2] at hpl
      subst hpl
      simp at hv
      subst hv
      decide
    · simp [cacheNest, h1, h2] at hpl

/-! ## Helper lemmas about the sunburst layout and the hit test -/

/-- Unfolding for a filtered child: a child whose sweep falls below
`MIN_SWEEP_SIZE` contributes nothing — no segment, no descendant layout, and
the running position `pos` is left unchanged for the remaining siblings. -/
theorem segsGo_skip (isDirF : String → Bool) (total : ℚ) (vpath : String) (vsize : Nat)
    (vkids : List Entry) (rest : List Entry) (o i st en pos : ℚ)
    (h : (vsize : ℚ) / total * (en - st) < MIN_SWEEP_SIZE) :
    segsGo isDirF total (Entry.mk vpath vsize vkids :: rest) o i st en pos
      = segsGo isDirF total rest o i st en pos := by
  rw [segsGo]
  simp [h]

/-- Unfolding for an emitted child: its segment starts at the running `pos`,
its subtree is laid out over `[pos, pos + sweep)` one ring further out, and
the remaining siblings continue from `pos + sweep`. -/
theorem segsGo_emit (isDirF : String → Bool) (total : ℚ) (vpath : String) (vsize : Nat)
    (vkids : List Entry) (rest : List Entry) (o i st en pos : ℚ)
    (h : ¬ (vsize : ℚ) / total * (en - st) < MIN_SWEEP_SIZE) :
    segsGo isDirF total (Entry.mk vpath vsize vkids :: rest) o i st en pos
      = Seg.mk vpath (isDirF vpath) o i pos ((vsize : ℚ) / total * (en - st))
          :: ((if vkids.isEmpty then []
               else segsGo isDirF (vsize : ℚ) vkids (o + 20) (i + 20) pos
                      (pos + (vsize : ℚ) / total * (en - st)) pos)
              ++ segsGo isDirF total rest o i st en
                  (pos + (vsize : ℚ) / total * (en - st))) := by
  rw [segsGo]
  simp [h]

/-- A filtered child is laid out exactly as if it were absent from the child
list: the sibling sweeps depend only on the parent total, so removing the
child changes no other segment. -/
theorem segsGo_filtered_removed (isDirF : String → Bool) (total : ℚ)
    (vp : String) (vsz : Nat) (vk : List Entry) (post : List Entry) (o i st en : ℚ)
    (h : (vsz : ℚ) / total * (en - st) < MIN_SWEEP_SIZE) :
    ∀ (pre : List Entry) (pos : ℚ),
      segsGo isDirF total (pre ++ Entry.mk vp vsz vk :: post) o i st en pos
        = segsGo isDirF total (pre ++ post) o i st en pos := by
  intro pre
  induction pre with
  | nil =>
      intro pos
      simpa using segsGo_skip isDirF total vp vsz vk post o i st en pos h
  | cons u us ih =>
      intro pos
      cases u with
      | mk up usz ukids =>
          simp only [List.cons_append]
          by_cases hu : (usz : ℚ) / total * (en - st) < MIN_SWEEP_SIZE
          · rw [segsGo_skip isDirF total up usz ukids _ o i st en pos hu,
              segsGo_skip isDirF total up usz ukids _ o i st en pos hu]
            exact ih pos
          · rw [segsGo_emit isDirF total up usz ukids _ o i st en pos hu,
              segsGo_emit isDirF total up usz ukids _ o i st en pos hu]
            rw [ih]

/-- Every segment the layout produces has an inner radius at least the inner
radius the layout started from (each nesting level only adds 20). -/
theorem segsGo_inner_ge (isDirF : String → Bool) :
    ∀ (total : ℚ) (l : List Entry) (o i st en pos : ℚ) (s : Seg),
      s ∈ segsGo isDirF total l o i st en pos → i ≤ s.inner := by
  intro total l o i st en pos
  induction total, l, o, i, st, en, pos using segsGo.induct isDirF with
  | case1 total o i st en pos =>
      intro s hs
      simp [segsGo] at hs
  | case2 total vp vsz vk rest o i st en pos sweep hskip ih =>
      intro s hs
      rw [segsGo_skip isDirF total vp vsz vk rest o i st en pos hskip] at hs
      exact ih s hs
  | case3 total vp vsz vk rest o i st en pos sweep hemit ihkids ih =>
      intro s hs
      rw [segsGo_emit isDirF total vp vsz vk rest o i st en pos hemit] at hs
      simp only [List.mem_cons, List.mem_append] at hs
      rcases hs with hs | hs | hs
      · subst hs
        simp [Seg.inner]
      · by_cases hk : vk.isEmpty
        · simp [hk] at hs
        · simp only [hk, if_false] at hs
          have h1 := ihkids s hs
          have h2 : (0 : ℚ) ≤ 20 := by norm_num
          linarith
      · exact ih s hs

/-- Inside the center disc the hover result is `Center` and no ring segment
matches, provided every segment's inner radius is at least the center
radius. -/
theorem chartHover_center (d2 angle : ℚ) (segs : List Seg)
    (hinner : ∀ s ∈ segs, CENTER_RADIUS ≤ s.inner)
    (hc : d2 ≤ CENTER_RADIUS * CENTER_RADIUS) :
    chartHover d2 angle segs = Hover.center ∧ ∀ s ∈ segs, segHit d2 angle s = false := by
  constructor
  · simp [chartHover, hc]
  · intro s hs
    have h40 : CENTER_RADIUS ≤ s.inner := hinner s hs
    have hr : (0 : ℚ) ≤ CENTER_RADIUS := by norm_num [CENTER_RADIUS]
    have hsq : CENTER_RADIUS * CENTER_RADIUS ≤ s.inner * s.inner :=
      mul_le_mul h40 h40 hr (le_trans hr h40)
    have hnot : ¬ s.inner * s.inner < d2 := by linarith
    simp [segHit, hnot]

/-! ## Claim theorems: sunburst layout (C2) and hit test (C7) -/

/-- Counterexample to C2 as stated: for the parent of size 1000 with
children `a` (size 1, sweep 1/1000 over the arc `[0, 1)`, below the 1/100
threshold) and `b` (size 500), the code's layout starts `b` at angle 0 — the
`continue` in `create_segments_recursive` skips the `pos += sweep` at the
end of the loop body — whereas the spec-modelled variant in which `pos`
still advances by the filtered sweep starts `b` at 1/1000.  Subsequent
siblings therefore do not keep the start angle they would have had without
the filter. -/
theorem claim_C2_counterexample :
    (createSegmentsRecursive (fun _ => false)
        (Entry.mk "r" 1000 [Entry.mk "a" 1 [], Entry.mk "b" 500 []]) 60 40 0 1).map
        (fun s => s.startAngle) = [0]
    ∧ (createSegmentsSpecModel (fun _ => false)
        (Entry.mk "r" 1000 [Entry.mk "a" 1 [], Entry.mk "b" 500 []]) 60 40 0 1).map
        (fun s => s.startAngle) = [1 / 1000]
    ∧ ((0 : ℚ) ≠ 1 / 1000) := by
  refine ⟨?_, ?_, by norm_num⟩
  · norm_num [createSegmentsRecursive, segsGo, MIN_SWEEP_SIZE, Entry.size, Entry.children,
      Seg.startAngle, List.isEmpty]
  · norm_num [createSegmentsSpecModel, segsGoSpecModel, MIN_SWEEP_SIZE, Entry.size,
      Entry.children, Seg.startAngle, List.isEmpty]

/-- C2 as amended: a child whose computed sweep falls below
`MIN_SWEEP_SIZE` produces no segment and its descendants are not laid out,
but the running angular position does **not** advance by its sweep — the
`continue` skips the `pos += sweep` as well — so the filtered child is laid
out exactly as if it were absent from the child list, and every subsequent
sibling starts earlier by the total filtered sweep of its preceding
siblings (second conjunct: the layout of the remaining siblings continues
from the unchanged `pos`). -/
theorem claim_C2_min_sweep_filter_amended (isDirF : String → Bool) (p : String) (sz : Nat)
    (vp : String) (vsz : Nat) (vk : List Entry) (o i st en : ℚ)
    (h : (vsz : ℚ) / (sz : ℚ) * (en - st) < MIN_SWEEP_SIZE) :
    (∀ (pre post : List Entry),
        createSegmentsRecursive isDirF
            (Entry.mk p sz (pre ++ Entry.mk vp vsz vk :: post)) o i st en
          = createSegmentsRecursive isDirF (Entry.mk p sz (pre ++ post)) o i st en)
    ∧ (∀ (rest : List Entry) (pos : ℚ),
        segsGo isDirF (sz : ℚ) (Entry.mk vp vsz vk :: rest) o i st en pos
          = segsGo isDirF (sz : ℚ) rest o i st en pos) := by
  constructor
  · intro pre post
    simp only [createSegmentsRecursive, Entry.size, Entry.children]
    exact segsGo_filtered_removed isDirF (sz : ℚ) vp vsz vk post o i st en h pre st
  · intro rest pos
    exact segsGo_skip isDirF (sz : ℚ) vp vsz vk rest o i st en pos h

/-- Witness for the amended C2: dropping the filtered child `a` leaves the
layout unchanged. -/
theorem claim_C2_min_sweep_filter_amended_witness :
    createSegmentsRecursive (fun _ => false)
        (Entry.mk "r" 1000 ([] ++ Entry.mk "a" 1 [] :: [Entry.mk "b" 500 []])) 60 40 0 1
      = createSegmentsRecursive (fun _ => false)
          (Entry.mk "r" 1000 ([] ++ [Entry.mk "b" 500 []])) 60 40 0 1 :=
  (claim_C2_min_sweep_filter_amended (fun _ => false) "r" 1000 "a" 1 [] 60 40 0 1
      (by norm_num [MIN_SWEEP_SIZE])).1 [] [Entry.mk "b" 500 []]

/-- C7: the hover result is a single value of `{Center, one Segment, None}`
by construction of `chartHover`; a cursor whose squared distance from the
center is at most `CENTER_RADIUS²` is reported as `Center` and matches no
ring segment whose inner radius is at least the center radius (every
segment's hover test requires squared distance strictly greater than its
inner radius squared).  The second conjunct shows all layout-produced
segments satisfy that premise: `refresh_segments` starts the innermost ring
at inner radius `40 = CENTER_RADIUS` and each nesting level only grows the
radii, so every rendered segment has inner radius at least the layout's
starting inner radius. -/
theorem claim_C7_hit_test_center (d2 angle : ℚ) (segs : List Seg)
    (hinner : ∀ s ∈ segs, CENTER_RADIUS ≤ s.inner)
    (hc : d2 ≤ CENTER_RADIUS * CENTER_RADIUS) :
    (chartHover d2 angle segs = Hover.center ∧ ∀ s ∈ segs, segHit d2 angle s = false)
    ∧ (∀ (isDirF : String → Bool) (total : ℚ) (l : List Entry)
        (o i st en pos : ℚ) (s : Seg),
        s ∈ segsGo isDirF total l o i st en pos → i ≤ s.inner) :=
  ⟨chartHover_center d2 angle segs hinner hc,
    fun isDirF total l o i st en pos s hs =>
      segsGo_inner_ge isDirF total l o i st en pos s hs⟩

/-- Witness for C7 at a concrete segment list and cursor distance. -/
theorem claim_C7_hit_test_center_witness :
    chartHover 100 0 [Seg.mk "x" false 60 40 0 1] = Hover.center
    ∧ segHit 100 0 (Seg.mk "x" false 60 40 0 1) = false := by
  have h := claim_C7_hit_test_center 100 0 [Seg.mk "x" false 60 40 0 1]
      (by
        intro s hs
        simp only [List.mem_singleton] at hs
        subst hs
        norm_num [CENTER_RADIUS])
      (by norm_num [CENTER_RADIUS])
  exact ⟨h.1.1, h.1.2 _ (by simp)⟩

end Rustitude
